import Mathlib

/-!
# Disk block numbers and block identifiers (`src/include/storage/block.h`)

A shallow embedding of the block addressing header: the 32-bit `BlockNumber`,
its sentinel and ceiling constants, the two-half storage record `BlockIdData`,
and the four inline support functions.

Machine integers are natural numbers.  A `uint32` value is a natural number
below `2 ^ 32`, a `uint16` value one below `2 ^ 16`; every place where C
converts to a narrower type or where 32-bit arithmetic can wrap is written
with an explicit `%`.
-/

namespace Block

/-! ## Machine integer conversions -/

/-- Conversion of an integer value to `uint16` (reduction modulo `2 ^ 16`). -/
def toUInt16 (x : Nat) : Nat := x % 2 ^ 16

/-- Conversion of an integer value to `uint32` (reduction modulo `2 ^ 32`). -/
def toUInt32 (x : Nat) : Nat := x % 2 ^ 32

/-! ## Constants -/

/-- The sentinel: `#define InvalidBlockNumber ((BlockNumber) 0xFFFFFFFF)`. -/
def InvalidBlockNumber : Nat := toUInt32 0xFFFFFFFF

/-- The ceiling: `#define MaxBlockNumber ((BlockNumber) 0xFFFFFFFE)`. -/
def MaxBlockNumber : Nat := toUInt32 0xFFFFFFFE

/-! ## The storage record -/

/-- The record `typedef struct BlockIdData { uint16 bi_hi; uint16 bi_lo; } BlockIdData;`. -/
structure BlockIdData where
  bi_hi : Nat
  bi_lo : Nat
  deriving DecidableEq, Repr

/-- Both fields of the record hold `uint16` values. -/
def BlockIdData.WF (b : BlockIdData) : Prop := b.bi_hi < 2 ^ 16 ∧ b.bi_lo < 2 ^ 16

instance (b : BlockIdData) : Decidable b.WF := by
  unfold BlockIdData.WF; infer_instance

/-! ## Support functions -/

/-- The function `BlockNumberIsValid`: `return blockNumber != InvalidBlockNumber;` -/
def BlockNumberIsValid (blockNumber : Nat) : Bool :=
  blockNumber != InvalidBlockNumber

/-- The function `BlockIdSet`: the two field stores, in source order, on the
record the pointer designates.  The right-hand sides are computed in `uint32`
and are converted to `uint16` by the assignment. -/
def BlockIdSet (blockId : BlockIdData) (blockNumber : Nat) : BlockIdData :=
  let s1 : BlockIdData := { blockId with bi_hi := toUInt16 (blockNumber >>> 16) }
  let s2 : BlockIdData := { s1 with bi_lo := toUInt16 (blockNumber &&& 0xffff) }
  s2

/-- The function `BlockIdEquals`: field-by-field comparison joined by `&&`. -/
def BlockIdEquals (blockId1 blockId2 : BlockIdData) : Bool :=
  (blockId1.bi_hi == blockId2.bi_hi) && (blockId1.bi_lo == blockId2.bi_lo)

/-- The function `BlockIdGetBlockNumber`: each half is cast to `BlockNumber`,
the high half is shifted left by 16 within 32 bits, and the two are joined
by `|`. -/
def BlockIdGetBlockNumber (blockId : BlockIdData) : Nat :=
  toUInt32 (toUInt32 blockId.bi_hi <<< 16) ||| toUInt32 blockId.bi_lo

/-! ## Specification-side definitions -/

/-- The pure constructor of the specification: `Encode(n)` sets
`hi = n >> 16` and `lo = n & 0xFFFF`, with no prior record involved. -/
def Encode (n : Nat) : BlockIdData :=
  { bi_hi := n >>> 16, bi_lo := n &&& 0xFFFF }

/-- The lexicographic order on the pair `(bi_hi, bi_lo)`. -/
def BlockIdData.lexLt (a b : BlockIdData) : Prop :=
  a.bi_hi < b.bi_hi ∨ (a.bi_hi = b.bi_hi ∧ a.bi_lo < b.bi_lo)

instance (a b : BlockIdData) : Decidable (a.lexLt b) := by
  unfold BlockIdData.lexLt; infer_instance

/-! ## Arithmetic of the two halves -/

theorem toUInt16_of_lt {x : Nat} (h : x < 2 ^ 16) : toUInt16 x = x :=
  Nat.mod_eq_of_lt h

theorem toUInt32_of_lt {x : Nat} (h : x < 2 ^ 32) : toUInt32 x = x :=
  Nat.mod_eq_of_lt h

theorem shiftRight16_eq_div (n : Nat) : n >>> 16 = n / 65536 := by
  rw [Nat.shiftRight_eq_div_pow]

theorem and_ffff_eq_mod (n : Nat) : n &&& 0xffff = n % 65536 := by
  have h := Nat.and_pow_two_sub_one_eq_mod n 16
  simpa using h

theorem shiftRight16_lt {n : Nat} (h : n < 2 ^ 32) : n >>> 16 < 2 ^ 16 := by
  rw [shiftRight16_eq_div]; omega

theorem and_ffff_lt (n : Nat) : n &&& 0xffff < 2 ^ 16 := by
  rw [and_ffff_eq_mod]; omega

theorem shl16_or_eq_add {hi lo : Nat} (hlo : lo < 2 ^ 16) :
    hi <<< 16 ||| lo = hi * 65536 + lo := by
  have h := Nat.mul_add_lt_is_or hlo hi
  rw [Nat.shiftLeft_eq]
  have e : hi * 2 ^ 16 = 2 ^ 16 * hi := Nat.mul_comm _ _
  rw [e, ← h]
  omega

/-- The fields written by `BlockIdSet`, as quotient and remainder. -/
theorem BlockIdSet_fields (old : BlockIdData) {n : Nat} (h : n < 2 ^ 32) :
    BlockIdSet old n = { bi_hi := n / 65536, bi_lo := n % 65536 } := by
  have h1 : toUInt16 (n >>> 16) = n / 65536 := by
    rw [toUInt16_of_lt (shiftRight16_lt h), shiftRight16_eq_div]
  have h2 : toUInt16 (n &&& 0xffff) = n % 65536 := by
    rw [toUInt16_of_lt (and_ffff_lt n), and_ffff_eq_mod]
  simp only [BlockIdSet, h1, h2]

/-- The number read by `BlockIdGetBlockNumber`, as an exact sum. -/
theorem BlockIdGetBlockNumber_eq_add {b : BlockIdData} (h : b.WF) :
    BlockIdGetBlockNumber b = b.bi_hi * 65536 + b.bi_lo := by
  obtain ⟨hh, hl⟩ := h
  have e1 : toUInt32 b.bi_hi = b.bi_hi := toUInt32_of_lt (by omega)
  have e2 : toUInt32 b.bi_lo = b.bi_lo := toUInt32_of_lt (by omega)
  have e3 : toUInt32 (b.bi_hi <<< 16) = b.bi_hi <<< 16 := by
    apply toUInt32_of_lt
    rw [Nat.shiftLeft_eq]; omega
  unfold BlockIdGetBlockNumber
  rw [e1, e2, e3, shl16_or_eq_add hl]

/-- A record built from a quotient and a remainder by `65536` of a 32-bit
number holds two `uint16` values. -/
theorem divmod_WF {n : Nat} (h : n < 2 ^ 32) :
    BlockIdData.WF { bi_hi := n / 65536, bi_lo := n % 65536 } := by
  constructor
  · show n / 65536 < 2 ^ 16
    omega
  · show n % 65536 < 2 ^ 16
    omega

/-- The number read back from a well-formed record is a `uint32` value. -/
theorem BlockIdGetBlockNumber_lt {b : BlockIdData} (h : b.WF) :
    BlockIdGetBlockNumber b < 2 ^ 32 := by
  rw [BlockIdGetBlockNumber_eq_add h]
  obtain ⟨hh, hl⟩ := h
  omega

/-- Reading after writing gives the number written. -/
theorem get_set (old : BlockIdData) {n : Nat} (h : n < 2 ^ 32) :
    BlockIdGetBlockNumber (BlockIdSet old n) = n := by
  rw [BlockIdSet_fields old h, BlockIdGetBlockNumber_eq_add (divmod_WF h)]
  show n / 65536 * 65536 + n % 65536 = n
  omega

/-- Writing what was read gives the record read. -/
theorem set_get (old : BlockIdData) {b : BlockIdData} (h : b.WF) :
    BlockIdSet old (BlockIdGetBlockNumber b) = b := by
  rw [BlockIdSet_fields old (BlockIdGetBlockNumber_lt h), BlockIdGetBlockNumber_eq_add h]
  obtain ⟨hh, hl⟩ := h
  have e1 : (b.bi_hi * 65536 + b.bi_lo) / 65536 = b.bi_hi := by omega
  have e2 : (b.bi_hi * 65536 + b.bi_lo) % 65536 = b.bi_lo := by omega
  rw [e1, e2]

/-- The function `BlockIdEquals` decides equality of records. -/
theorem BlockIdEquals_iff (a b : BlockIdData) : BlockIdEquals a b = true ↔ a = b := by
  cases a with
  | mk ah al =>
    cases b with
    | mk bh bl =>
      simp [BlockIdEquals]

/-- The shifted high half and the low half have no bit in common. -/
theorem shl16_and_eq_zero {hi lo : Nat} (hlo : lo < 2 ^ 16) : hi <<< 16 &&& lo = 0 := by
  apply Nat.eq_of_testBit_eq
  intro i
  rw [Nat.testBit_and, Nat.testBit_shiftLeft, Nat.zero_testBit]
  by_cases hi16 : 16 ≤ i
  · have hlt : lo < 2 ^ i :=
      Nat.lt_of_lt_of_le hlo (Nat.pow_le_pow_right (by decide) hi16)
    rw [Nat.testBit_lt_two_pow hlt, Bool.and_false]
  · have hd : decide (i ≥ 16) = false := decide_eq_false hi16
    rw [hd, Bool.false_and, Bool.false_and]

/-- The two constants as plain numbers. -/
theorem InvalidBlockNumber_eq : InvalidBlockNumber = 4294967295 := by decide

theorem MaxBlockNumber_eq : MaxBlockNumber = 4294967294 := by decide

/-! ## Round trips -/

/-- Claim C1: for every 32-bit block number `n` (the valid range and the
sentinel `0xFFFFFFFF` alike), and whatever the record held before, setting the
record with `BlockIdSet` and reading it with `BlockIdGetBlockNumber` returns
exactly `n`. -/
theorem roundtrip_set_then_get (old : BlockIdData) (n : Nat) (h : n < 2 ^ 32) :
    BlockIdGetBlockNumber (BlockIdSet old n) = n :=
  get_set old h

theorem roundtrip_set_then_get_witness :
    0xFFFFFFFF < 2 ^ 32 ∧
      BlockIdGetBlockNumber (BlockIdSet { bi_hi := 7, bi_lo := 9 } 0xFFFFFFFF) = 0xFFFFFFFF :=
  ⟨by decide, roundtrip_set_then_get { bi_hi := 7, bi_lo := 9 } 0xFFFFFFFF (by decide)⟩

/-- Claim C2: for every block identifier `id` with arbitrary 16-bit halves,
the number read from it is a 32-bit value, and `BlockIdSet` applied to that
number yields a record whose `bi_hi` and `bi_lo` both equal those of `id`. -/
theorem roundtrip_get_then_set (old id : BlockIdData) (h : id.WF) :
    BlockIdGetBlockNumber id < 2 ^ 32 ∧
      (BlockIdSet old (BlockIdGetBlockNumber id)).bi_hi = id.bi_hi ∧
      (BlockIdSet old (BlockIdGetBlockNumber id)).bi_lo = id.bi_lo := by
  refine ⟨BlockIdGetBlockNumber_lt h, ?_, ?_⟩
  · rw [set_get old h]
  · rw [set_get old h]

theorem roundtrip_get_then_set_witness :
    BlockIdData.WF { bi_hi := 0xFFFF, bi_lo := 0x1234 } ∧
      (BlockIdSet { bi_hi := 0, bi_lo := 0 }
        (BlockIdGetBlockNumber { bi_hi := 0xFFFF, bi_lo := 0x1234 })).bi_hi = 0xFFFF :=
  ⟨by decide,
    (roundtrip_get_then_set { bi_hi := 0, bi_lo := 0 } { bi_hi := 0xFFFF, bi_lo := 0x1234 }
      (by decide)).2.1⟩

/-! ## Layout of the encoding -/

/-- Claim C3: for every 32-bit block number `n`, `BlockIdSet` stores
`bi_hi = n >> 16`, which is `n / 65536`, and `bi_lo = n & 0xFFFF`, which is
`n % 65536`; both right-hand sides already fit in 16 bits, so the conversion
to `uint16` changes neither; and `0x0001FFFF` gives `bi_hi = 0x0001`,
`bi_lo = 0xFFFF`. -/
theorem set_layout (old : BlockIdData) (n : Nat) (h : n < 2 ^ 32) :
    ((BlockIdSet old n).bi_hi = n >>> 16 ∧ n >>> 16 = n / 65536) ∧
      ((BlockIdSet old n).bi_lo = n &&& 0xFFFF ∧ n &&& 0xFFFF = n % 65536) ∧
      (toUInt16 (n >>> 16) = n >>> 16 ∧ toUInt16 (n &&& 0xffff) = n &&& 0xffff) ∧
      BlockIdSet old 0x0001FFFF = { bi_hi := 0x0001, bi_lo := 0xFFFF } := by
  have t1 : toUInt16 (n >>> 16) = n >>> 16 := toUInt16_of_lt (shiftRight16_lt h)
  have t2 : toUInt16 (n &&& 0xffff) = n &&& 0xffff := toUInt16_of_lt (and_ffff_lt n)
  refine ⟨⟨t1, shiftRight16_eq_div n⟩, ⟨t2, and_ffff_eq_mod n⟩, ⟨t1, t2⟩, ?_⟩
  rw [BlockIdSet_fields old (by decide)]

theorem set_layout_witness :
    0xFFFFFFFE < 2 ^ 32 ∧
      (BlockIdSet { bi_hi := 3, bi_lo := 4 } 0xFFFFFFFE).bi_hi = 0xFFFFFFFE >>> 16 :=
  ⟨by decide, (set_layout { bi_hi := 3, bi_lo := 4 } 0xFFFFFFFE (by decide)).1.1⟩

/-! ## Equality -/

/-- Claim C4: for all 32-bit block numbers `n1` and `n2`, `BlockIdEquals` on
the records produced by `BlockIdSet` from `n1` and from `n2` (whatever the
records held before) returns true if and only if `n1 = n2`; it is true for 42
and 42 and false for 42 and 43. -/
theorem equals_of_set (o1 o2 : BlockIdData) (n1 n2 : Nat)
    (h1 : n1 < 2 ^ 32) (h2 : n2 < 2 ^ 32) :
    (BlockIdEquals (BlockIdSet o1 n1) (BlockIdSet o2 n2) = true ↔ n1 = n2) ∧
      BlockIdEquals (BlockIdSet o1 42) (BlockIdSet o2 42) = true ∧
      BlockIdEquals (BlockIdSet o1 42) (BlockIdSet o2 43) = false := by
  refine ⟨?_, ?_, ?_⟩
  · rw [BlockIdEquals_iff]
    constructor
    · intro h
      have hg := congrArg BlockIdGetBlockNumber h
      rwa [get_set o1 h1, get_set o2 h2] at hg
    · intro h
      rw [BlockIdSet_fields o1 h1, BlockIdSet_fields o2 h2, h]
  · rw [BlockIdSet_fields o1 (by decide), BlockIdSet_fields o2 (by decide)]
    decide
  · rw [BlockIdSet_fields o1 (by decide), BlockIdSet_fields o2 (by decide)]
    decide

theorem equals_of_set_witness :
    (0x10000 < 2 ^ 32 ∧ 0x1FFFF < 2 ^ 32) ∧
      (BlockIdEquals (BlockIdSet { bi_hi := 1, bi_lo := 2 } 0x10000)
          (BlockIdSet { bi_hi := 5, bi_lo := 6 } 0x1FFFF) = true ↔
        0x10000 = 0x1FFFF) :=
  ⟨⟨by decide, by decide⟩,
    (equals_of_set { bi_hi := 1, bi_lo := 2 } { bi_hi := 5, bi_lo := 6 } 0x10000 0x1FFFF
      (by decide) (by decide)).1⟩

/-- Claim C5: for all block identifiers `a` and `b` with arbitrary 16-bit
halves (produced by `BlockIdSet` or not), `BlockIdEquals a b` returns true if
and only if the two decoded block numbers are equal. -/
theorem equals_iff_same_number (a b : BlockIdData) (ha : a.WF) (hb : b.WF) :
    BlockIdEquals a b = true ↔ BlockIdGetBlockNumber a = BlockIdGetBlockNumber b := by
  rw [BlockIdEquals_iff]
  constructor
  · intro h
    rw [h]
  · intro h
    have e := set_get a ha
    rw [h, set_get a hb] at e
    exact e.symm

theorem equals_iff_same_number_witness :
    (BlockIdData.WF { bi_hi := 0xFFFF, bi_lo := 0 } ∧
        BlockIdData.WF { bi_hi := 0, bi_lo := 0xFFFF }) ∧
      (BlockIdEquals { bi_hi := 0xFFFF, bi_lo := 0 } { bi_hi := 0, bi_lo := 0xFFFF } = true ↔
        BlockIdGetBlockNumber { bi_hi := 0xFFFF, bi_lo := 0 } =
          BlockIdGetBlockNumber { bi_hi := 0, bi_lo := 0xFFFF }) :=
  ⟨⟨by decide, by decide⟩,
    equals_iff_same_number { bi_hi := 0xFFFF, bi_lo := 0 } { bi_hi := 0, bi_lo := 0xFFFF }
      (by decide) (by decide)⟩

/-! ## Validity -/

/-- Claim C6: `BlockNumberIsValid n` is false when `n` is `0xFFFFFFFF`
(`InvalidBlockNumber`) and true for every other value, among them
`0xFFFFFFFE` (`MaxBlockNumber`) and `0`. -/
theorem isValid_iff_not_sentinel (n : Nat) :
    BlockNumberIsValid n = (if n = 0xFFFFFFFF then false else true) ∧
      InvalidBlockNumber = 0xFFFFFFFF ∧
      BlockNumberIsValid InvalidBlockNumber = false ∧
      BlockNumberIsValid MaxBlockNumber = true ∧
      BlockNumberIsValid 0xFFFFFFFE = true ∧
      BlockNumberIsValid 0 = true := by
  refine ⟨?_, by decide, by decide, by decide, by decide, by decide⟩
  unfold BlockNumberIsValid
  rw [InvalidBlockNumber_eq]
  by_cases h : n = 0xFFFFFFFF
  · simp [h]
  · simp [h]

/-- Claim C7: for every 32-bit block number `n`, `BlockNumberIsValid n` holds
if and only if `n ≤ MaxBlockNumber`; `MaxBlockNumber + 1` is
`InvalidBlockNumber` (with or without 32-bit wraparound), and
`InvalidBlockNumber` is the largest 32-bit value. -/
theorem isValid_iff_le_max (n : Nat) (h : n < 2 ^ 32) :
    (BlockNumberIsValid n = true ↔ n ≤ MaxBlockNumber) ∧
      MaxBlockNumber + 1 = InvalidBlockNumber ∧
      toUInt32 (MaxBlockNumber + 1) = InvalidBlockNumber ∧
      InvalidBlockNumber + 1 = 2 ^ 32 ∧
      n ≤ InvalidBlockNumber := by
  refine ⟨?_, by decide, by decide, by decide, ?_⟩
  · unfold BlockNumberIsValid
    rw [InvalidBlockNumber_eq, MaxBlockNumber_eq, bne_iff_ne]
    omega
  · rw [InvalidBlockNumber_eq]
    omega

theorem isValid_iff_le_max_witness :
    0xFFFFFFFF < 2 ^ 32 ∧
      (BlockNumberIsValid 0xFFFFFFFF = true ↔ 0xFFFFFFFF ≤ MaxBlockNumber) :=
  ⟨by decide, (isValid_iff_le_max 0xFFFFFFFF (by decide)).1⟩

/-! ## Value of the decoding -/

/-- Claim C8: for every block identifier with arbitrary 16-bit halves,
`BlockIdGetBlockNumber` returns `(bi_hi << 16) | bi_lo`, and that is the exact
integer `bi_hi * 65536 + bi_lo`: the shift of the widened high half does not
wrap in 32 bits, the two halves share no bit, the result is below `2 ^ 32`,
its upper half is `bi_hi` and its lower half is `bi_lo`. -/
theorem get_value (b : BlockIdData) (h : b.WF) :
    BlockIdGetBlockNumber b = b.bi_hi <<< 16 ||| b.bi_lo ∧
      BlockIdGetBlockNumber b = b.bi_hi * 65536 + b.bi_lo ∧
      toUInt32 (toUInt32 b.bi_hi <<< 16) = b.bi_hi <<< 16 ∧
      b.bi_hi <<< 16 &&& b.bi_lo = 0 ∧
      BlockIdGetBlockNumber b < 2 ^ 32 ∧
      BlockIdGetBlockNumber b >>> 16 = b.bi_hi ∧
      BlockIdGetBlockNumber b &&& 0xFFFF = b.bi_lo := by
  have hadd := BlockIdGetBlockNumber_eq_add h
  have hlt := BlockIdGetBlockNumber_lt h
  obtain ⟨hh, hl⟩ := h
  have e1 : toUInt32 b.bi_hi = b.bi_hi := toUInt32_of_lt (by omega)
  have e3 : toUInt32 (b.bi_hi <<< 16) = b.bi_hi <<< 16 := by
    apply toUInt32_of_lt
    rw [Nat.shiftLeft_eq]; omega
  refine ⟨?_, hadd, ?_, shl16_and_eq_zero hl, hlt, ?_, ?_⟩
  · rw [hadd, shl16_or_eq_add hl]
  · rw [e1, e3]
  · rw [shiftRight16_eq_div, hadd]
    omega
  · rw [and_ffff_eq_mod, hadd]
    omega

theorem get_value_witness :
    BlockIdData.WF { bi_hi := 0xFFFF, bi_lo := 0xFFFF } ∧
      BlockIdGetBlockNumber { bi_hi := 0xFFFF, bi_lo := 0xFFFF } = 0xFFFF * 65536 + 0xFFFF :=
  ⟨by decide, (get_value { bi_hi := 0xFFFF, bi_lo := 0xFFFF } (by decide)).2.1⟩

/-! ## Frame of the in-place set -/

/-- Claim C9: for every prior contents `old` and every 32-bit block number
`n`, the record after `BlockIdSet old n` is the value of the pure constructor
`Encode n`, so it is the same for any other prior contents `old2`; and a
second `BlockIdSet` with `m` after a first with `n` leaves exactly
`Encode m`. -/
theorem set_overwrites (old old2 : BlockIdData) (n m : Nat)
    (hn : n < 2 ^ 32) (hm : m < 2 ^ 32) :
    BlockIdSet old n = Encode n ∧
      BlockIdSet old n = BlockIdSet old2 n ∧
      BlockIdSet (BlockIdSet old n) m = Encode m := by
  have enc : ∀ (o : BlockIdData) (k : Nat), k < 2 ^ 32 → BlockIdSet o k = Encode k := by
    intro o k hk
    rw [BlockIdSet_fields o hk]
    unfold Encode
    rw [shiftRight16_eq_div, and_ffff_eq_mod]
  exact ⟨enc old n hn, (enc old n hn).trans (enc old2 n hn).symm, enc _ m hm⟩

theorem set_overwrites_witness :
    (0xDEADBEEF < 2 ^ 32 ∧ 0xFFFFFFFF < 2 ^ 32) ∧
      BlockIdSet (BlockIdSet { bi_hi := 0x1111, bi_lo := 0x2222 } 0xDEADBEEF) 0xFFFFFFFF =
        Encode 0xFFFFFFFF :=
  ⟨⟨by decide, by decide⟩,
    (set_overwrites { bi_hi := 0x1111, bi_lo := 0x2222 } { bi_hi := 0, bi_lo := 0 }
      0xDEADBEEF 0xFFFFFFFF (by decide) (by decide)).2.2⟩

/-! ## The sentinel through the codec -/

/-- Claim C11: `BlockIdSet` with `InvalidBlockNumber` is not rejected and
yields `bi_hi = 0xFFFF`, `bi_lo = 0xFFFF`; and for every block identifier `id`
with 16-bit halves, `BlockNumberIsValid` of the decoded number is false if and
only if `id.bi_hi = 0xFFFF` and `id.bi_lo = 0xFFFF`. -/
theorem sentinel_encoding (old id : BlockIdData) (h : id.WF) :
    BlockIdSet old InvalidBlockNumber = { bi_hi := 0xFFFF, bi_lo := 0xFFFF } ∧
      (BlockNumberIsValid (BlockIdGetBlockNumber id) = false ↔
        id.bi_hi = 0xFFFF ∧ id.bi_lo = 0xFFFF) := by
  constructor
  · rw [InvalidBlockNumber_eq, BlockIdSet_fields old (by decide)]
  · unfold BlockNumberIsValid
    rw [InvalidBlockNumber_eq, BlockIdGetBlockNumber_eq_add h, bne_eq_false_iff_eq]
    obtain ⟨hh, hl⟩ := h
    omega

theorem sentinel_encoding_witness :
    BlockIdData.WF { bi_hi := 0xFFFF, bi_lo := 0xFFFE } ∧
      (BlockNumberIsValid (BlockIdGetBlockNumber { bi_hi := 0xFFFF, bi_lo := 0xFFFE }) = false ↔
        (0xFFFF : Nat) = 0xFFFF ∧ (0xFFFE : Nat) = 0xFFFF) :=
  ⟨by decide,
    (sentinel_encoding { bi_hi := 0, bi_lo := 0 } { bi_hi := 0xFFFF, bi_lo := 0xFFFE }
      (by decide)).2⟩

/-! ## Order -/

/-- Claim C12: for all 32-bit block numbers `n1` and `n2`, `n1 < n2` holds if
and only if the record set from `n1` is lexicographically smaller on
`(bi_hi, bi_lo)` than the record set from `n2`; and for all block identifiers
`a` and `b` with 16-bit halves the decoded numbers compare the same way as the
`(bi_hi, bi_lo)` pairs. -/
theorem encoding_preserves_order (o1 o2 a b : BlockIdData) (n1 n2 : Nat)
    (h1 : n1 < 2 ^ 32) (h2 : n2 < 2 ^ 32) (ha : a.WF) (hb : b.WF) :
    (n1 < n2 ↔
        (BlockIdSet o1 n1).bi_hi < (BlockIdSet o2 n2).bi_hi ∨
          ((BlockIdSet o1 n1).bi_hi = (BlockIdSet o2 n2).bi_hi ∧
            (BlockIdSet o1 n1).bi_lo < (BlockIdSet o2 n2).bi_lo)) ∧
      (BlockIdGetBlockNumber a < BlockIdGetBlockNumber b ↔ a.lexLt b) := by
  constructor
  · rw [BlockIdSet_fields o1 h1, BlockIdSet_fields o2 h2]
    show n1 < n2 ↔
      n1 / 65536 < n2 / 65536 ∨ (n1 / 65536 = n2 / 65536 ∧ n1 % 65536 < n2 % 65536)
    omega
  · rw [BlockIdGetBlockNumber_eq_add ha, BlockIdGetBlockNumber_eq_add hb]
    unfold BlockIdData.lexLt
    obtain ⟨hah, hal⟩ := ha
    obtain ⟨hbh, hbl⟩ := hb
    omega

theorem encoding_preserves_order_witness :
    ((0x0001FFFF < 2 ^ 32 ∧ 0x00020000 < 2 ^ 32) ∧
        BlockIdData.WF { bi_hi := 2, bi_lo := 0 } ∧
        BlockIdData.WF { bi_hi := 1, bi_lo := 0xFFFF }) ∧
      (BlockIdGetBlockNumber { bi_hi := 2, bi_lo := 0 } <
          BlockIdGetBlockNumber { bi_hi := 1, bi_lo := 0xFFFF } ↔
        BlockIdData.lexLt { bi_hi := 2, bi_lo := 0 } { bi_hi := 1, bi_lo := 0xFFFF }) :=
  ⟨⟨⟨by decide, by decide⟩, by decide, by decide⟩,
    (encoding_preserves_order { bi_hi := 9, bi_lo := 9 } { bi_hi := 0, bi_lo := 0 }
      { bi_hi := 2, bi_lo := 0 } { bi_hi := 1, bi_lo := 0xFFFF } 0x0001FFFF 0x00020000
      (by decide) (by decide) (by decide) (by decide)).2⟩

end Block
